import Mathlib

/-!
# Verification of the voice-translator turn pipeline (src/App.tsx)

A shallow embedding of the turn-segmentation and asynchronous-translation
pipeline of `src/App.tsx`: the React component state becomes an explicit
record, each event handler becomes a pure state transformer, and the
asynchronous environment (message arrival, translation completion, the
millisecond clock backing `Date.now()`, resource acquisition outcomes)
becomes explicit event parameters.  Handles for acquired resources are
modelled as `Option Nat` (a per-session nonce stands for the concrete
browser object), so that "allocated" is `some n` and "released" is `none`.

One point of fidelity deserves note: `stopListening` reads the React state
variable `currentTurn` from its closure (it is a `useCallback` with
dependency `[currentTurn]`), not through a functional updater.  The
`onerror` callback handed to `live.connect` therefore holds the
`stopListening` instance that existed when `startListening` ran, whose
captured `currentTurn` is the render-time value at session start.  We make
that capture explicit: `stopListening` takes the captured turn as a
parameter; the user-initiated stop path passes the up-to-date value (the
button handler is re-created on every render), while the transport-error
path passes the value captured at session creation, recorded in the world
state at the start event.
-/

/-- One transcript turn (`TranscriptionTurn` in src/types). -/
structure TranscriptionTurn where
  id : Nat
  original : String
  translated : String
  isFinal : Bool
deriving DecidableEq, Repr

/-- The controller status union: 'idle' | 'connecting' | 'listening' | 'error'. -/
inductive Status where
  | idle
  | connecting
  | listening
  | error
deriving DecidableEq, Repr

/-- JavaScript `a || b` for strings: the empty string is falsy. -/
def strOr (a b : String) : String :=
  if a = "" then b else a

/-- The component state of `App`: the four `useState` cells relevant to the
pipeline plus the five `useRef` resource cells (`Option Nat` handles). -/
structure AppState where
  status : Status
  history : List TranscriptionTurn
  currentTurn : Option TranscriptionTurn
  errorMessage : String
  micStream : Option Nat
  audioCtx : Option Nat
  processorNode : Option Nat
  sessionConn : Option Nat
  ai : Option Nat
deriving DecidableEq, Repr

/-- `stopListening` (src/App.tsx lines 120-136), with the `currentTurn`
value seen by its closure made explicit as `captured`: stops and nulls all
four resource refs, sets status `idle`, appends the captured turn to
history as final when it exists and has non-empty `original` (JS truthiness
of `currentTurn && currentTurn.original`), and clears the current-turn
slot.  The `ai` ref is not cleared by the source. -/
def stopListening (captured : Option TranscriptionTurn) (s : AppState) : AppState :=
  let s1 : AppState :=
    { s with micStream := none, processorNode := none, audioCtx := none,
             sessionConn := none, status := Status.idle }
  let s2 : AppState :=
    match captured with
    | some t =>
        if t.original ≠ "" then
          { s1 with history := s1.history ++ [{ t with isFinal := true }] }
        else s1
    | none => s1
  { s2 with currentTurn := none }

/-- The `inputTranscription` branch of `onmessage` (lines 201-209):
functional update of the current turn.  `clock` is the value `Date.now()`
returns if a turn is created by this fragment. -/
def fragmentStep (clock : Nat) (text : String) (s : AppState) : AppState :=
  { s with currentTurn := some (
      match s.currentTurn with
      | some prev =>
          { id := prev.id,
            original := strOr prev.original "" ++ text,
            translated := strOr prev.translated "",
            isFinal := false }
      | none =>
          { id := clock, original := "" ++ text, translated := "", isFinal := false }) }

/-- A translation request fired by the `turnComplete` branch, keyed by the
finalized turn's id. -/
structure PendingT where
  turnId : Nat
  text : String
deriving DecidableEq, Repr

/-- The component state plus the environment bookkeeping the embedding
needs: the list of translation requests dispatched so far, and the
current-turn value captured by the running session's connect callbacks. -/
structure World where
  app : AppState
  dispatched : List PendingT
  sessionCaptured : Option TranscriptionTurn
deriving DecidableEq, Repr

/-- The `turnComplete` branch of `onmessage` (lines 211-224): when a
current turn with non-empty `original` exists, mark it final, append it to
history, fire one translation request for it, and clear the slot; in every
case the updater returns `null` for the current turn. -/
def turnCompleteStep (w : World) : World :=
  match w.app.currentTurn with
  | some prevTurn =>
      if prevTurn.original ≠ "" then
        let finalTurn : TranscriptionTurn := { prevTurn with isFinal := true }
        { w with
          app := { w.app with history := w.app.history ++ [finalTurn], currentTurn := none },
          dispatched := w.dispatched ++ [⟨finalTurn.id, finalTurn.original⟩] }
      else
        { w with app := { w.app with currentTurn := none } }
  | none => { w with app := { w.app with currentTurn := none } }

/-- The `.then` continuation of a dispatched translation (lines 216-219):
map over history, overwriting `translated` of every entry whose id equals
the completed turn's id. -/
def applyTranslation (turnId : Nat) (translation : String) (s : AppState) : AppState :=
  { s with history := s.history.map (fun h =>
      if h.id = turnId then { h with translated := translation } else h) }

/-- Outcome of the remote `generateContent` call. -/
inductive RemoteOutcome where
  | ok (text : String)
  | failed
deriving DecidableEq, Repr

/-- `translateText` (lines 147-161): returns the resolved string together
with whether a remote request was made.  `!text || !aiRef.current` resolves
immediately with the empty string and no request; otherwise the remote
outcome yields either the response text or the fixed failure sentinel. -/
def translateText (text : String) (hasAi : Bool) (remote : RemoteOutcome) : String × Bool :=
  if text = "" then ("", false)
  else if hasAi = false then ("", false)
  else
    match remote with
    | RemoteOutcome.ok t => (t, true)
    | RemoteOutcome.failed => ("[Translation failed]", true)

/-- The stage of `startListening` at which setup fails: the API-key check,
`getUserMedia`, the AudioContext construction, or `live.connect`. -/
inductive StartStage where
  | apiKey
  | mic
  | audioCtxStage
  | connect
deriving DecidableEq, Repr

/-- Environment outcome of one `startListening` attempt. -/
inductive StartOutcome where
  | success
  | failAt (stage : StartStage) (msg : String)
deriving DecidableEq, Repr

/-- The synchronous prefix of `startListening` (lines 164-167), before the
`try` block: status `connecting`, error message cleared, current turn
cleared, history cleared. -/
def startSyncReset (s : AppState) : AppState :=
  { s with status := Status.connecting, errorMessage := "",
           currentTurn := none, history := [] }

/-- `startListening` (lines 163-246).  After the synchronous reset, the
stages acquire `ai`, the microphone stream, the audio context and the
connection in order; the `catch` block (lines 240-245) only sets the error
message and status — it releases nothing, so every resource acquired
before the failing stage stays allocated.  On success the connection
promise is stored and status stays `connecting` until `onopen`. -/
def startListening (s : AppState) (nonce : Nat) (outcome : StartOutcome) : AppState :=
  let s0 := startSyncReset s
  match outcome with
  | StartOutcome.success =>
      { s0 with ai := some nonce, micStream := some nonce,
                audioCtx := some nonce, sessionConn := some nonce }
  | StartOutcome.failAt stage msg =>
      let s1 : AppState :=
        match stage with
        | StartStage.apiKey => s0
        | StartStage.mic => { s0 with ai := some nonce }
        | StartStage.audioCtxStage => { s0 with ai := some nonce, micStream := some nonce }
        | StartStage.connect =>
            { s0 with ai := some nonce, micStream := some nonce, audioCtx := some nonce }
      { s1 with errorMessage := "Failed to start: " ++ msg, status := Status.error }

/-- The `onopen` callback (lines 185-199): creates the processing node
from the audio context and moves to `listening`. -/
def onOpenStep (s : AppState) : AppState :=
  { s with processorNode := s.audioCtx, status := Status.listening }

/-- The `onerror` callback (lines 226-231): sets the error message, sets
status `error`, then invokes the captured `stopListening` — whose final
`setStatus('idle')` overwrites the `error` status. -/
def onErrorStep (captured : Option TranscriptionTurn) (s : AppState) : AppState :=
  stopListening captured
    { s with errorMessage := "An API error occurred. Please try again.",
             status := Status.error }

/-- The asynchronous events driving the pipeline.  `fragment` carries the
clock value `Date.now()` would return; `start` carries the session nonce
and the environment's setup outcome; `translationDone` is the resolution
of a previously dispatched translation request. -/
inductive Event where
  | start (nonce : Nat) (outcome : StartOutcome)
  | onOpen
  | fragment (clock : Nat) (text : String)
  | turnComplete
  | stop
  | streamError
  | translationDone (turnId : Nat) (translation : String)
deriving DecidableEq, Repr

/-- One event-processing step.  `start` records the render-time current
turn as the session's captured value; the user `stop` uses the up-to-date
current turn; `streamError` uses the session's stale captured value. -/
def step (w : World) (e : Event) : World :=
  match e with
  | Event.start nonce outcome =>
      { w with app := startListening w.app nonce outcome,
               sessionCaptured := w.app.currentTurn }
  | Event.onOpen => { w with app := onOpenStep w.app }
  | Event.fragment clock text => { w with app := fragmentStep clock text w.app }
  | Event.turnComplete => turnCompleteStep w
  | Event.stop => { w with app := stopListening w.app.currentTurn w.app }
  | Event.streamError => { w with app := onErrorStep w.sessionCaptured w.app }
  | Event.translationDone tid tr => { w with app := applyTranslation tid tr w.app }

/-- Process a sequence of events in arrival order. -/
def runTrace (w : World) (es : List Event) : World :=
  es.foldl step w

/-- The freshly mounted component: everything idle and empty. -/
def initialWorld : World :=
  { app := { status := Status.idle, history := [], currentTurn := none,
             errorMessage := "", micStream := none, audioCtx := none,
             processorNode := none, sessionConn := none, ai := none },
    dispatched := [], sessionCaptured := none }

/-- `handleToggleRecording` (lines 248-254): stop when `listening` or
`connecting`, otherwise start. -/
def handleToggleRecording (w : World) (nonce : Nat) (outcome : StartOutcome) : World :=
  if w.app.status = Status.listening ∨ w.app.status = Status.connecting then
    { w with app := stopListening w.app.currentTurn w.app }
  else
    { w with app := startListening w.app nonce outcome,
             sessionCaptured := w.app.currentTurn }

/-- A session that produced one finalized turn (id 5, "hola", with its
translation request in flight) and was then stopped. -/
def wStopped : World :=
  runTrace initialWorld
    [Event.start 1 StartOutcome.success, Event.onOpen, Event.fragment 5 "hola",
     Event.turnComplete, Event.stop]

/-- A session that is listening with an in-progress turn (id 5, "hola"). -/
def wLive : World :=
  runTrace initialWorld
    [Event.start 1 StartOutcome.success, Event.onOpen, Event.fragment 5 "hola"]

/-- A session that reached `listening` (nonce 1). -/
def wListening : World :=
  runTrace initialWorld [Event.start 1 StartOutcome.success, Event.onOpen]

/-- The per-entry update a translation completion performs. -/
def updTurn (tid : Nat) (tr : String) (h : TranscriptionTurn) : TranscriptionTurn :=
  if h.id = tid then { h with translated := tr } else h

/-- Process a list of fragment events, each carrying its clock value. -/
def fragmentsRun (w : World) (fs : List (Nat × String)) : World :=
  fs.foldl (fun v p => step v (Event.fragment p.1 p.2)) w

/-- The session of `wListening` after one finalized turn (id 5, "hola"),
still listening, its translation in flight. -/
def wTurnDone : World :=
  runTrace initialWorld
    [Event.start 1 StartOutcome.success, Event.onOpen, Event.fragment 5 "hola",
     Event.turnComplete]

/-- The ids of the turns appended to history, in order. -/
def historyIds (w : World) : List Nat := w.app.history.map (fun t => t.id)

/-- The id held by the current-turn slot, if any. -/
def currentIds (w : World) : List Nat :=
  match w.app.currentTurn with
  | some t => [t.id]
  | none => []

/-- Every id alive in the state, history first. -/
def stateIds (w : World) : List Nat := historyIds w ++ currentIds w

/-- The clock values carried by the fragment events of a trace are at
least `c` and strictly increase along the trace (the millisecond clock
moves forward and never repeats within the trace). -/
def clocksFromB (c : Nat) : List Event → Bool
  | [] => true
  | Event.fragment k _ :: rest => decide (c ≤ k) && clocksFromB (k + 1) rest
  | _ :: rest => clocksFromB c rest

/-- Events other than `start`: the events of one running session. -/
def inSession : Event → Bool
  | Event.start _ _ => false
  | _ => true

/-! ## Helper lemmas -/

theorem strOr_empty (a : String) : strOr a "" = a := by
  unfold strOr
  split <;> simp_all

theorem empty_append_str (s : String) : "" ++ s = s := by
  cases s
  rfl

theorem getLast?_append_singleton {α : Type} (l : List α) (a : α) :
    (l ++ [a]).getLast? = some a := by
  simp [List.getLast?_concat]

/-! ## C10 — start resets transcript state before any checks -/

/-- C10: every invocation of start, from any status and under any outcome,
synchronously resets history, the current-turn slot and the error message
(the reset prefix runs before any resource acquisition or failure check),
so even a start attempt that subsequently fails discards the previous
session's entire transcript. -/
theorem c10_start_resets_transcript (s : AppState) (n : Nat) (o : StartOutcome) :
    (startSyncReset s).history = [] ∧
    (startSyncReset s).currentTurn = none ∧
    (startSyncReset s).errorMessage = "" ∧
    (startSyncReset s).status = Status.connecting ∧
    (startListening s n o).history = [] ∧
    (startListening s n o).currentTurn = none := by
  refine ⟨rfl, rfl, rfl, rfl, ?_, ?_⟩ <;>
    cases o with
    | success => rfl
    | failAt stage msg => cases stage <;> rfl

/-! ## C3 — failed start surfaces an error but releases nothing -/

/-- C3 counterexample: a start attempt that fails at the connection stage
(after the microphone and audio context were acquired) surfaces the error
status, yet the microphone stream and audio context remain allocated —
refuting the claim that no resources remain allocated on failure. -/
theorem c3_counterexample :
    (startListening initialWorld.app 1 (StartOutcome.failAt StartStage.connect "boom")).status
      = Status.error ∧
    (startListening initialWorld.app 1 (StartOutcome.failAt StartStage.connect "boom")).micStream
      ≠ none ∧
    (startListening initialWorld.app 1 (StartOutcome.failAt StartStage.connect "boom")).audioCtx
      ≠ none := by
  refine ⟨rfl, ?_, ?_⟩ <;> decide

/-- C3 amended: when start fails, the failure is surfaced as the `error`
status with a prefixed human-readable message, but the `catch` block
releases nothing: every resource acquired before the failing stage stays
allocated (microphone and audio context on a connect failure, microphone
on an audio-context failure, the service handle on every post-key
failure). -/
theorem c3_failure_leaves_resources_allocated (s : AppState) (n : Nat) (msg : String) :
    ((startListening s n (StartOutcome.failAt StartStage.connect msg)).status = Status.error ∧
      (startListening s n (StartOutcome.failAt StartStage.connect msg)).errorMessage
        = "Failed to start: " ++ msg ∧
      (startListening s n (StartOutcome.failAt StartStage.connect msg)).micStream = some n ∧
      (startListening s n (StartOutcome.failAt StartStage.connect msg)).audioCtx = some n ∧
      (startListening s n (StartOutcome.failAt StartStage.connect msg)).ai = some n) ∧
    ((startListening s n (StartOutcome.failAt StartStage.audioCtxStage msg)).status = Status.error ∧
      (startListening s n (StartOutcome.failAt StartStage.audioCtxStage msg)).micStream = some n) ∧
    ((startListening s n (StartOutcome.failAt StartStage.mic msg)).status = Status.error ∧
      (startListening s n (StartOutcome.failAt StartStage.mic msg)).ai = some n) ∧
    ((startListening s n (StartOutcome.failAt StartStage.apiKey msg)).status = Status.error ∧
      (startListening s n (StartOutcome.failAt StartStage.apiKey msg)).errorMessage
        = "Failed to start: " ++ msg) := by
  exact ⟨⟨rfl, rfl, rfl, rfl, rfl⟩, ⟨rfl, rfl⟩, ⟨rfl, rfl⟩, ⟨rfl, rfl⟩⟩

/-! ## C2 — mid-stream transport error -/

/-- C2: evaluation of the code at the failing input.  A transport error
arrives while listening with an in-progress turn `{id 5, original "hola"}`.
The `onerror` handler does tear the session down (all resource refs are
released), but it ends with status `idle`, not `error` — `stopListening`'s
`setStatus('idle')` overwrites the `setStatus('error')` issued just before
it — and the in-progress turn is not finalized into history: the
`stopListening` closure the connect callbacks hold captured the
session-start `currentTurn` (none), so the captured speech is dropped.
The error message is set but status `idle` means it is never rendered
(the view shows `errorMessage` only when status is `error`). -/
theorem c2_error_path_evaluation :
    (runTrace initialWorld
      [Event.start 1 StartOutcome.success, Event.onOpen, Event.fragment 5 "hola",
       Event.streamError]).app.status = Status.idle ∧
    (runTrace initialWorld
      [Event.start 1 StartOutcome.success, Event.onOpen, Event.fragment 5 "hola",
       Event.streamError]).app.errorMessage = "An API error occurred. Please try again." ∧
    (runTrace initialWorld
      [Event.start 1 StartOutcome.success, Event.onOpen, Event.fragment 5 "hola",
       Event.streamError]).app.history = [] ∧
    (runTrace initialWorld
      [Event.start 1 StartOutcome.success, Event.onOpen, Event.fragment 5 "hola",
       Event.streamError]).app.currentTurn = none ∧
    (runTrace initialWorld
      [Event.start 1 StartOutcome.success, Event.onOpen, Event.fragment 5 "hola",
       Event.streamError]).app.micStream = none ∧
    (runTrace initialWorld
      [Event.start 1 StartOutcome.success, Event.onOpen, Event.fragment 5 "hola",
       Event.streamError]).app.sessionConn = none := by
  decide

/-! ## C1 — late callbacks after stop are not suppressed -/

/-- C1 counterexample: the translation request dispatched before `stop()`
is still in flight when `stop()` returns; when it completes afterwards it
mutates history (the entry keyed by its turn id gains the translation) —
no session-identity guard (nor any guard at all) suppresses it. -/
theorem c1_counterexample :
    wStopped.dispatched = [⟨5, "hola"⟩] ∧
    (step wStopped (Event.translationDone 5 "Hello")).app.history ≠ wStopped.app.history := by
  refine ⟨by decide, by decide⟩

/-- C1 amended: after `stop()` returns, late asynchronous callbacks are
not suppressed — there is no session-identity guard (nor a boolean one).
A late stream fragment mutates the current-turn slot of the stopped state,
creating a fresh current turn from the fragment text; and a late
translation completion for a turn that stop finalized into history mutates
history, overwriting that entry's `translated` field. -/
theorem c1_late_callbacks_mutate_state :
    (∀ (s : AppState) (c : Nat) (txt : String),
      (fragmentStep c txt (stopListening s.currentTurn s)).currentTurn =
        some { id := c, original := txt, translated := "", isFinal := false }) ∧
    (∀ (w : World) (t : TranscriptionTurn) (tr : String),
      w.app.currentTurn = some t → t.original ≠ "" → t.translated ≠ tr →
      (step (step w Event.stop) (Event.translationDone t.id tr)).app.history ≠
        (step w Event.stop).app.history) := by
  constructor
  · intro s c txt
    simp [fragmentStep, stopListening, empty_append_str]
  · intro w t tr hcur hor htr heq
    have hstop : (step w Event.stop).app.history
        = w.app.history ++ [{ t with isFinal := true }] := by
      simp only [step, stopListening, hcur]
      rw [if_pos hor]
    rw [show step (step w Event.stop) (Event.translationDone t.id tr)
          = { step w Event.stop with
              app := applyTranslation t.id tr (step w Event.stop).app } from rfl] at heq
    simp only [applyTranslation, hstop] at heq
    have h1 := congrArg List.getLast? heq
    rw [List.map_append, List.map_cons, List.map_nil,
        getLast?_append_singleton, getLast?_append_singleton] at h1
    have h2 := Option.some.inj h1
    have hid : ({ t with isFinal := true } : TranscriptionTurn).id = t.id := rfl
    rw [if_pos hid] at h2
    have h3 := congrArg TranscriptionTurn.translated h2
    exact htr h3.symm

/-- C1 amended, witness: both late-callback mutations evaluated at
concrete inputs. -/
theorem c1_late_callbacks_mutate_state_witness :
    (fragmentStep 9 "late" (stopListening initialWorld.app.currentTurn initialWorld.app)).currentTurn
      = some { id := 9, original := "late", translated := "", isFinal := false } ∧
    (step (step wLive Event.stop) (Event.translationDone 5 "Hello")).app.history ≠
      (step wLive Event.stop).app.history := by
  refine ⟨c1_late_callbacks_mutate_state.1 initialWorld.app 9 "late", ?_⟩
  exact c1_late_callbacks_mutate_state.2 wLive ⟨5, "hola", "", false⟩ "Hello"
    (by decide) (by decide) (by decide)
/-! ## C4 — single active session -/

/-- Closed form of `stopListening`: all resource refs cleared, status
`idle`, current turn cleared, and the captured turn appended as final
exactly when it exists with non-empty `original`. -/
theorem stopListening_spec (captured : Option TranscriptionTurn) (s : AppState) :
    stopListening captured s =
      { s with micStream := none, processorNode := none, audioCtx := none,
               sessionConn := none, status := Status.idle, currentTurn := none,
               history := s.history ++
                 (match captured with
                  | some t => if t.original ≠ "" then [{ t with isFinal := true }] else []
                  | none => []) } := by
  cases captured with
  | none => simp [stopListening]
  | some t =>
      rcases eq_or_ne t.original "" with ht | ht
      · simp [stopListening, ht]
      · simp [stopListening, ht]

/-- C4 counterexample: invoking `startListening` itself while status is
`listening` is neither rejected nor a no-op — it begins a second capture
session: the state changes and the microphone handle is replaced by a
freshly acquired one (nonce 2) while the first session's stream (nonce 1)
is overwritten without having been released.  The source has no guard
inside `startListening`; only `handleToggleRecording` routes away from
it. -/
theorem c4_counterexample :
    wListening.app.status = Status.listening ∧
    step wListening (Event.start 2 StartOutcome.success) ≠ wListening ∧
    wListening.app.micStream = some 1 ∧
    (step wListening (Event.start 2 StartOutcome.success)).app.micStream = some 2 := by
  decide

/-- C4 amended: the single-session discipline is enforced at the toggle
entry point, not inside `startListening`: invoking the toggle while status
is `connecting` or `listening` performs `stopListening` — never `start` —
so no second concurrent capture session is created through it, and the
resulting state holds no capture resources. -/
theorem c4_toggle_stops_when_active (w : World) (n : Nat) (o : StartOutcome)
    (h : w.app.status = Status.listening ∨ w.app.status = Status.connecting) :
    handleToggleRecording w n o = { w with app := stopListening w.app.currentTurn w.app } ∧
    (handleToggleRecording w n o).app.micStream = none ∧
    (handleToggleRecording w n o).app.sessionConn = none ∧
    (handleToggleRecording w n o).app.status = Status.idle := by
  have hw : handleToggleRecording w n o
      = { w with app := stopListening w.app.currentTurn w.app } := by
    unfold handleToggleRecording
    rw [if_pos h]
  refine ⟨hw, ?_, ?_, ?_⟩ <;> rw [hw, stopListening_spec]

/-- C4 amended, witness: toggling in the concrete listening state stops the
session. -/
theorem c4_toggle_stops_when_active_witness :
    handleToggleRecording wListening 2 StartOutcome.success
      = { wListening with app := stopListening wListening.app.currentTurn wListening.app } ∧
    (handleToggleRecording wListening 2 StartOutcome.success).app.micStream = none ∧
    (handleToggleRecording wListening 2 StartOutcome.success).app.sessionConn = none ∧
    (handleToggleRecording wListening 2 StartOutcome.success).app.status = Status.idle :=
  c4_toggle_stops_when_active wListening 2 StartOutcome.success (by decide)

/-! ## C6 — forced stop of an in-progress turn -/

/-- C6 counterexample: a fragment `"test"` followed by user `stop()` does
finalize the turn into history, but — unlike `onTurnComplete`, which fires
a translation request (see the contrast trace) — it hands nothing to the
translation dispatcher; and on the mid-stream error path the in-progress
turn is not finalized at all (the handler's captured current turn is the
stale session-start value). -/
theorem c6_counterexample :
    ((runTrace initialWorld
        [Event.start 1 StartOutcome.success, Event.onOpen, Event.fragment 5 "test",
         Event.stop]).app.history
        = [{ id := 5, original := "test", translated := "", isFinal := true }] ∧
      (runTrace initialWorld
        [Event.start 1 StartOutcome.success, Event.onOpen, Event.fragment 5 "test",
         Event.stop]).dispatched = []) ∧
    (runTrace initialWorld
        [Event.start 1 StartOutcome.success, Event.onOpen, Event.fragment 5 "test",
         Event.turnComplete]).dispatched = [⟨5, "test"⟩] ∧
    (runTrace initialWorld
        [Event.start 1 StartOutcome.success, Event.onOpen, Event.fragment 5 "hola",
         Event.streamError]).app.history = [] := by
  decide

/-- C6 amended: a user `stop()` with a current turn of non-empty `original`
finalizes it (marks `isFinal`, appends it to history) and clears the slot,
but does not hand it to the translation dispatcher — no translation request
is fired, so its `translated` field stays as accumulated; a current turn
with empty `original` is discarded without a history entry.  (On the
mid-stream error path, the turn is not finalized at all; see the
counterexample.) -/
theorem c6_forced_stop_finalizes_without_dispatch (w : World) (t : TranscriptionTurn)
    (hcur : w.app.currentTurn = some t) :
    (t.original ≠ "" →
      (step w Event.stop).app.history = w.app.history ++ [{ t with isFinal := true }] ∧
      (step w Event.stop).app.currentTurn = none ∧
      (step w Event.stop).dispatched = w.dispatched) ∧
    (t.original = "" →
      (step w Event.stop).app.history = w.app.history ∧
      (step w Event.stop).app.currentTurn = none ∧
      (step w Event.stop).dispatched = w.dispatched) := by
  have hstep : step w Event.stop = { w with app := stopListening w.app.currentTurn w.app } := rfl
  constructor
  · intro hor
    rw [hstep, hcur, stopListening_spec]
    exact ⟨by simp [hor], rfl, rfl⟩
  · intro hor
    rw [hstep, hcur, stopListening_spec]
    exact ⟨by simp [hor], rfl, rfl⟩

/-- C6 amended, witness: forced stop of the concrete in-progress turn. -/
theorem c6_forced_stop_witness :
    (step wLive Event.stop).app.history
      = wLive.app.history ++ [{ id := 5, original := "hola", translated := "", isFinal := true }] ∧
    (step wLive Event.stop).app.currentTurn = none ∧
    (step wLive Event.stop).dispatched = wLive.dispatched :=
  (c6_forced_stop_finalizes_without_dispatch wLive ⟨5, "hola", "", false⟩ (by decide)).1
    (by decide)
/-! ## C7 — translation completion is a keyed in-place update -/

theorem updTurn_comm (tid tid2 : Nat) (tr tr2 : String) (hne : tid ≠ tid2)
    (h : TranscriptionTurn) :
    updTurn tid2 tr2 (updTurn tid tr h) = updTurn tid tr (updTurn tid2 tr2 h) := by
  have hne2 : tid2 ≠ tid := Ne.symm hne
  rcases eq_or_ne h.id tid with h1 | h1 <;> rcases eq_or_ne h.id tid2 with h2 | h2
  · exact absurd (h1.symm.trans h2) hne
  · simp [updTurn, h1, h2, hne, hne2]
  · simp [updTurn, h1, h2, hne, hne2]
  · simp [updTurn, h1, h2]

theorem map_updTurn_comm (tid tid2 : Nat) (tr tr2 : String) (hne : tid ≠ tid2)
    (l : List TranscriptionTurn) :
    (l.map (updTurn tid tr)).map (updTurn tid2 tr2)
      = (l.map (updTurn tid2 tr2)).map (updTurn tid tr) := by
  induction l with
  | nil => rfl
  | cons x xs ih => simp [ih, updTurn_comm tid tid2 tr tr2 hne x]

/-- C7: a translation completion (success or failure alike — both arrive
as a `translationDone` resolution) changes nothing but the `translated`
field of the history entries keyed by its turn id: status, current turn,
error message and dispatched requests are untouched, history keeps its
length, every entry keeps its position, entries with a different id are
unchanged, the keyed entry keeps its `id`/`original`/`isFinal`, and two
completions for distinct ids commute — arrival order is irrelevant. -/
theorem c7_translation_completion_frame (w : World) (tid : Nat) (tr : String) :
    (step w (Event.translationDone tid tr)).app.status = w.app.status ∧
    (step w (Event.translationDone tid tr)).app.currentTurn = w.app.currentTurn ∧
    (step w (Event.translationDone tid tr)).app.errorMessage = w.app.errorMessage ∧
    (step w (Event.translationDone tid tr)).dispatched = w.dispatched ∧
    (step w (Event.translationDone tid tr)).app.history.length = w.app.history.length ∧
    (∀ i : Nat, (step w (Event.translationDone tid tr)).app.history[i]?
      = (w.app.history[i]?).map (updTurn tid tr)) ∧
    (∀ (i : Nat) (h : TranscriptionTurn), w.app.history[i]? = some h → h.id ≠ tid →
      (step w (Event.translationDone tid tr)).app.history[i]? = some h) ∧
    (∀ (i : Nat) (h : TranscriptionTurn), w.app.history[i]? = some h → h.id = tid →
      (step w (Event.translationDone tid tr)).app.history[i]?
        = some { h with translated := tr }) ∧
    (∀ (tid2 : Nat) (tr2 : String), tid ≠ tid2 →
      step (step w (Event.translationDone tid tr)) (Event.translationDone tid2 tr2)
        = step (step w (Event.translationDone tid2 tr2)) (Event.translationDone tid tr)) := by
  have hh : (step w (Event.translationDone tid tr)).app.history
      = w.app.history.map (updTurn tid tr) := rfl
  refine ⟨rfl, rfl, rfl, rfl, ?_, ?_, ?_, ?_, ?_⟩
  · rw [hh]
    simp
  · intro i
    rw [hh]
    simp [List.getElem?_map]
  · intro i h hi hne
    rw [hh, List.getElem?_map, hi]
    simp [updTurn, hne]
  · intro i h hi hid
    rw [hh, List.getElem?_map, hi]
    simp [updTurn, hid]
  · intro tid2 tr2 hne2
    have e1 : step (step w (Event.translationDone tid tr)) (Event.translationDone tid2 tr2)
        = { w with app := { w.app with
            history := (w.app.history.map (updTurn tid tr)).map (updTurn tid2 tr2) } } := rfl
    have e2 : step (step w (Event.translationDone tid2 tr2)) (Event.translationDone tid tr)
        = { w with app := { w.app with
            history := (w.app.history.map (updTurn tid2 tr2)).map (updTurn tid tr) } } := rfl
    rw [e1, e2, map_updTurn_comm tid tid2 tr tr2 hne2]

/-- C7 witness: the frame conditions and the commutation evaluated on a
concrete one-turn history. -/
theorem c7_translation_completion_frame_witness :
    (step wStopped (Event.translationDone 5 "Hello")).app.status = wStopped.app.status ∧
    (step wStopped (Event.translationDone 5 "Hello")).app.history[0]?
      = some { id := 5, original := "hola", translated := "Hello", isFinal := true } ∧
    step (step wStopped (Event.translationDone 5 "Hello")) (Event.translationDone 9 "x")
      = step (step wStopped (Event.translationDone 9 "x")) (Event.translationDone 5 "Hello") := by
  have h := c7_translation_completion_frame wStopped 5 "Hello"
  refine ⟨h.1, ?_, h.2.2.2.2.2.2.2.2 9 "x" (by decide)⟩
  have h2 := h.2.2.2.2.2.2.2.1 0 ⟨5, "hola", "", true⟩ (by decide) (by decide)
  exact h2

/-! ## C8 — fragments concatenate in arrival order -/

theorem fragmentStep_some (clock : Nat) (text : String) (s : AppState)
    (t : TranscriptionTurn) (hcur : s.currentTurn = some t) :
    fragmentStep clock text s = { s with currentTurn :=
      (some { id := t.id, original := t.original ++ text, translated := t.translated,
              isFinal := false }) } := by
  simp [fragmentStep, hcur, strOr_empty]

theorem fragmentsRun_accumulates (fs : List (Nat × String)) :
    ∀ (w : World) (t : TranscriptionTurn),
      w.app.currentTurn = some t → t.isFinal = false →
      fragmentsRun w fs = { w with app := { w.app with currentTurn :=
        (some { id := t.id, original := fs.foldl (fun a p => a ++ p.2) t.original,
                translated := t.translated, isFinal := false }) } } := by
  induction fs with
  | nil =>
      intro w t hcur hfin
      have ht : ({ id := t.id, original := t.original, translated := t.translated,
                   isFinal := false } : TranscriptionTurn) = t := by
        cases t
        simp_all
      show w = _
      rw [List.foldl_nil, ht, ← hcur]
  | cons p fs ih =>
      intro w t hcur hfin
      have hstep : step w (Event.fragment p.1 p.2)
          = { w with app := fragmentStep p.1 p.2 w.app } := rfl
      have hfrag := fragmentStep_some p.1 p.2 w.app t hcur
      rw [show fragmentsRun w (p :: fs)
            = fragmentsRun (step w (Event.fragment p.1 p.2)) fs from rfl, hstep, hfrag]
      exact ih _ ⟨t.id, t.original ++ p.2, t.translated, false⟩ rfl rfl

/-- C8: starting with an empty current-turn slot, the first fragment
creates the current turn with id equal to the clock value, `original`
equal to its text, empty `translated` and `isFinal = false`; each further
fragment appends its text, so after any fragment sequence the current
turn's `original` is the concatenation of the texts in arrival order —
and the next turn-boundary event finalizes exactly that concatenation
into history (and dispatches it), provided it is non-empty. -/
theorem c8_fragment_concatenation (w : World) (c : Nat) (t : String)
    (fs : List (Nat × String)) (hcur : w.app.currentTurn = none) :
    (fragmentsRun w ((c, t) :: fs)).app.currentTurn
      = some { id := c, original := fs.foldl (fun a p => a ++ p.2) t,
               translated := "", isFinal := false } ∧
    (fragmentsRun w ((c, t) :: fs)).app.history = w.app.history ∧
    (fs.foldl (fun a p => a ++ p.2) t ≠ "" →
      (step (fragmentsRun w ((c, t) :: fs)) Event.turnComplete).app.history
        = w.app.history ++ [{ id := c, original := fs.foldl (fun a p => a ++ p.2) t,
                              translated := "", isFinal := true }] ∧
      (step (fragmentsRun w ((c, t) :: fs)) Event.turnComplete).dispatched
        = w.dispatched ++ [⟨c, fs.foldl (fun a p => a ++ p.2) t⟩] ∧
      (step (fragmentsRun w ((c, t) :: fs)) Event.turnComplete).app.currentTurn = none) := by
  have h0 : step w (Event.fragment c t) = { w with app := { w.app with currentTurn :=
      (some { id := c, original := t, translated := "", isFinal := false }) } } := by
    show { w with app := fragmentStep c t w.app } = _
    simp [fragmentStep, hcur, empty_append_str]
  have hrun : fragmentsRun w ((c, t) :: fs)
      = { w with app := { w.app with currentTurn :=
          (some { id := c, original := fs.foldl (fun a p => a ++ p.2) t,
                  translated := "", isFinal := false }) } } := by
    rw [show fragmentsRun w ((c, t) :: fs)
          = fragmentsRun (step w (Event.fragment c t)) fs from rfl, h0]
    exact fragmentsRun_accumulates fs _ ⟨c, t, "", false⟩ rfl rfl
  refine ⟨by rw [hrun], by rw [hrun], ?_⟩
  intro hne
  rw [show step (fragmentsRun w ((c, t) :: fs)) Event.turnComplete
        = turnCompleteStep (fragmentsRun w ((c, t) :: fs)) from rfl, hrun]
  simp only [turnCompleteStep]
  rw [if_pos hne]
  exact ⟨rfl, rfl, rfl⟩

/-- C8 witness: two fragments then a boundary on the concrete initial
session. -/
theorem c8_fragment_concatenation_witness :
    (fragmentsRun wListening [(5, "Hola"), (6, " mundo")]).app.currentTurn
      = some { id := 5, original := "Hola mundo", translated := "", isFinal := false } ∧
    (step (fragmentsRun wListening [(5, "Hola"), (6, " mundo")]) Event.turnComplete).app.history
      = wListening.app.history
        ++ [{ id := 5, original := "Hola mundo", translated := "", isFinal := true }] := by
  have h := c8_fragment_concatenation wListening 5 "Hola" [(6, " mundo")] (by decide)
  exact ⟨h.1, (h.2.2 (by decide)).1⟩

/-! ## C9 — translation failure is local to its turn -/

/-- C9: a failed translation resolves to the fixed sentinel
`"[Translation failed]"` (not an empty string, no retry — `translateText`
is one request per call), and applying that completion changes neither the
session status (a listening session stays listening) nor the current turn
nor any history entry with a different id; only the keyed entry's
`translated` field is overwritten with the sentinel.  Degenerate input —
empty text or no service handle — resolves immediately to the empty string
with no remote call. -/
theorem c9_translation_failure_is_local :
    (∀ (remote : RemoteOutcome), translateText "" true remote = ("", false)) ∧
    (∀ (text : String) (remote : RemoteOutcome), translateText text false remote = ("", false)) ∧
    (∀ (text : String), text ≠ "" →
      translateText text true RemoteOutcome.failed = ("[Translation failed]", true)) ∧
    (∀ (w : World) (tid : Nat),
      (step w (Event.translationDone tid "[Translation failed]")).app.status = w.app.status ∧
      (step w (Event.translationDone tid "[Translation failed]")).app.currentTurn
        = w.app.currentTurn ∧
      (∀ (i : Nat) (h : TranscriptionTurn), w.app.history[i]? = some h → h.id ≠ tid →
        (step w (Event.translationDone tid "[Translation failed]")).app.history[i]?
          = some h) ∧
      (∀ (i : Nat) (h : TranscriptionTurn), w.app.history[i]? = some h → h.id = tid →
        (step w (Event.translationDone tid "[Translation failed]")).app.history[i]?
          = some { h with translated := "[Translation failed]" })) := by
  refine ⟨fun remote => rfl, ?_, ?_, ?_⟩
  · intro text remote
    rcases eq_or_ne text "" with ht | ht <;> simp [translateText, ht]
  · intro text ht
    simp [translateText, ht]
  · intro w tid
    have hh : (step w (Event.translationDone tid "[Translation failed]")).app.history
        = w.app.history.map (updTurn tid "[Translation failed]") := rfl
    refine ⟨rfl, rfl, ?_, ?_⟩
    · intro i h hi hne
      rw [hh, List.getElem?_map, hi]
      simp [updTurn, hne]
    · intro i h hi hid
      rw [hh, List.getElem?_map, hi]
      simp [updTurn, hid]

/-- C9 witness: the sentinel resolution and its local application to the
concrete listening session. -/
theorem c9_translation_failure_is_local_witness :
    translateText "hola" true RemoteOutcome.failed = ("[Translation failed]", true) ∧
    (step wTurnDone (Event.translationDone 5 "[Translation failed]")).app.status
      = wTurnDone.app.status ∧
    (step wTurnDone (Event.translationDone 5 "[Translation failed]")).app.history[0]?
      = some { id := 5, original := "hola", translated := "[Translation failed]",
               isFinal := true } := by
  refine ⟨c9_translation_failure_is_local.2.2.1 "hola" (by decide),
    (c9_translation_failure_is_local.2.2.2 wTurnDone 5).1, ?_⟩
  exact (c9_translation_failure_is_local.2.2.2 wTurnDone 5).2.2.2 0
    ⟨5, "hola", "", true⟩ (by decide) (by decide)

/-! ## C5 — turn ids: uniqueness, stability, order -/

theorem step_sessionCaptured (w : World) (e : Event) (he : inSession e = true) :
    (step w e).sessionCaptured = w.sessionCaptured := by
  cases e with
  | start n o => cases he
  | turnComplete =>
      show (turnCompleteStep w).sessionCaptured = w.sessionCaptured
      cases hc : w.app.currentTurn with
      | none => simp [turnCompleteStep, hc]
      | some t =>
          simp only [turnCompleteStep, hc]
          split <;> rfl
  | onOpen => rfl
  | fragment k txt => rfl
  | stop => rfl
  | streamError => rfl
  | translationDone tid tr => rfl

theorem historyIds_map_updTurn (tid : Nat) (tr : String) (l : List TranscriptionTurn) :
    (l.map (updTurn tid tr)).map (fun t => t.id) = l.map (fun t => t.id) := by
  induction l with
  | nil => rfl
  | cons x xs ih =>
      simp only [List.map_cons, ih]
      congr 1
      unfold updTurn
      split <;> rfl

theorem turnKey_map_updTurn (tid : Nat) (tr : String) (l : List TranscriptionTurn) :
    (l.map (updTurn tid tr)).map (fun t => (t.id, t.original, t.isFinal))
      = l.map (fun t => (t.id, t.original, t.isFinal)) := by
  induction l with
  | nil => rfl
  | cons x xs ih =>
      simp only [List.map_cons, ih]
      congr 1
      unfold updTurn
      split <;> rfl

theorem applyTranslation_eq_map (tid : Nat) (tr : String) (s : AppState) :
    applyTranslation tid tr s = { s with history := s.history.map (updTurn tid tr) } := rfl

/-- Invariant carried along a single session's trace: if the ids alive in
the state are strictly increasing and all below the next admissible clock
value, they stay strictly increasing after processing any in-session trace
whose fragment clocks start at that value and strictly increase. -/
theorem stateIds_invariant : ∀ (es : List Event) (c : Nat) (w : World),
    es.all inSession = true →
    w.sessionCaptured = none →
    (stateIds w).Pairwise (· < ·) →
    (∀ i ∈ stateIds w, i < c) →
    clocksFromB c es = true →
    (stateIds (runTrace w es)).Pairwise (· < ·) := by
  intro es
  induction es with
  | nil =>
      intro c w _ _ hp _ _
      exact hp
  | cons e es ih =>
      intro c w hall hsc hp hbd hcl
      rw [List.all_cons, Bool.and_eq_true] at hall
      have he : inSession e = true := hall.1
      have hall2 : es.all inSession = true := hall.2
      have hsc2 : (step w e).sessionCaptured = none := by
        rw [step_sessionCaptured w e he, hsc]
      rw [show runTrace w (e :: es) = runTrace (step w e) es from rfl]
      cases e with
      | start n o => cases he
      | onOpen =>
          have hids : stateIds (step w Event.onOpen) = stateIds w := rfl
          exact ih c _ hall2 hsc2 (by rw [hids]; exact hp)
            (fun i hi => hbd i (hids ▸ hi)) (by simpa [clocksFromB] using hcl)
      | fragment k txt =>
          have hck : c ≤ k ∧ clocksFromB (k + 1) es = true := by
            simpa [clocksFromB, Bool.and_eq_true, decide_eq_true_eq] using hcl
          cases hc : w.app.currentTurn with
          | none =>
              have hids : stateIds (step w (Event.fragment k txt)) = historyIds w ++ [k] := by
                simp [stateIds, historyIds, currentIds, step, fragmentStep, hc]
              have hold : stateIds w = historyIds w := by
                simp [stateIds, currentIds, hc]
              have hp' : (stateIds (step w (Event.fragment k txt))).Pairwise (· < ·) := by
                rw [hids, List.pairwise_append]
                refine ⟨by rw [hold] at hp; exact hp, List.pairwise_singleton _ _, ?_⟩
                intro a ha b hb
                rw [List.mem_singleton] at hb
                subst hb
                have hac : a < c := hbd a (by rw [hold]; exact ha)
                omega
              have hbd' : ∀ i ∈ stateIds (step w (Event.fragment k txt)), i < k + 1 := by
                intro i hi
                rw [hids] at hi
                rcases List.mem_append.mp hi with h | h
                · have : i < c := hbd i (by rw [hold]; exact h)
                  omega
                · rw [List.mem_singleton] at h
                  omega
              exact ih (k + 1) _ hall2 hsc2 hp' hbd' hck.2
          | some t =>
              have hids : stateIds (step w (Event.fragment k txt)) = stateIds w := by
                simp [stateIds, historyIds, currentIds, step, fragmentStep, hc]
              have hbd' : ∀ i ∈ stateIds (step w (Event.fragment k txt)), i < k + 1 := by
                intro i hi
                have : i < c := hbd i (hids ▸ hi)
                omega
              exact ih (k + 1) _ hall2 hsc2 (by rw [hids]; exact hp) hbd' hck.2
      | turnComplete =>
          have hcl2 : clocksFromB c es = true := by simpa [clocksFromB] using hcl
          cases hc : w.app.currentTurn with
          | none =>
              have hids : stateIds (step w Event.turnComplete) = stateIds w := by
                simp [stateIds, historyIds, currentIds, step, turnCompleteStep, hc]
              exact ih c _ hall2 hsc2 (by rw [hids]; exact hp)
                (fun i hi => hbd i (hids ▸ hi)) hcl2
          | some t =>
              rcases eq_or_ne t.original "" with ht | ht
              · have hids : stateIds (step w Event.turnComplete) = historyIds w := by
                  simp [stateIds, historyIds, currentIds, step, turnCompleteStep, hc, ht]
                have hsub : (historyIds w).Sublist (stateIds w) :=
                  List.sublist_append_left _ _
                exact ih c _ hall2 hsc2 (by rw [hids]; exact hp.sublist hsub)
                  (fun i hi => hbd i (List.mem_append_left _ (hids ▸ hi))) hcl2
              · have hids : stateIds (step w Event.turnComplete) = stateIds w := by
                  simp [stateIds, historyIds, currentIds, step, turnCompleteStep, hc, ht]
                exact ih c _ hall2 hsc2 (by rw [hids]; exact hp)
                  (fun i hi => hbd i (hids ▸ hi)) hcl2
      | stop =>
          have hcl2 : clocksFromB c es = true := by simpa [clocksFromB] using hcl
          cases hc : w.app.currentTurn with
          | none =>
              have hids : stateIds (step w Event.stop) = stateIds w := by
                simp [stateIds, historyIds, currentIds, step, stopListening_spec, hc]
              exact ih c _ hall2 hsc2 (by rw [hids]; exact hp)
                (fun i hi => hbd i (hids ▸ hi)) hcl2
          | some t =>
              rcases eq_or_ne t.original "" with ht | ht
              · have hids : stateIds (step w Event.stop) = historyIds w := by
                  simp [stateIds, historyIds, currentIds, step, stopListening_spec, hc, ht]
                have hsub : (historyIds w).Sublist (stateIds w) :=
                  List.sublist_append_left _ _
                exact ih c _ hall2 hsc2 (by rw [hids]; exact hp.sublist hsub)
                  (fun i hi => hbd i (List.mem_append_left _ (hids ▸ hi))) hcl2
              · have hids : stateIds (step w Event.stop) = stateIds w := by
                  simp [stateIds, historyIds, currentIds, step, stopListening_spec, hc, ht]
                exact ih c _ hall2 hsc2 (by rw [hids]; exact hp)
                  (fun i hi => hbd i (hids ▸ hi)) hcl2
      | streamError =>
          have hcl2 : clocksFromB c es = true := by simpa [clocksFromB] using hcl
          have hids : stateIds (step w Event.streamError) = historyIds w := by
            simp [stateIds, historyIds, currentIds, step, onErrorStep, stopListening_spec, hsc]
          have hsub : (historyIds w).Sublist (stateIds w) :=
            List.sublist_append_left _ _
          exact ih c _ hall2 hsc2 (by rw [hids]; exact hp.sublist hsub)
            (fun i hi => hbd i (List.mem_append_left _ (hids ▸ hi))) hcl2
      | translationDone tid trs =>
          have hcl2 : clocksFromB c es = true := by simpa [clocksFromB] using hcl
          have hids : stateIds (step w (Event.translationDone tid trs)) = stateIds w := by
            simp only [stateIds, historyIds, currentIds, step, applyTranslation_eq_map]
            rw [historyIds_map_updTurn]
          exact ih c _ hall2 hsc2 (by rw [hids]; exact hp)
            (fun i hi => hbd i (hids ▸ hi)) hcl2

/-- C5 counterexample: turn ids come from the millisecond clock
(`Date.now()`), which may render the same value twice; two turns whose
first fragments fall in the same millisecond (clock value 7) are both
appended with id 7, so history ids are not pairwise unique. -/
theorem c5_counterexample :
    (runTrace initialWorld
      [Event.start 1 StartOutcome.success, Event.onOpen,
       Event.fragment 7 "a", Event.turnComplete,
       Event.fragment 7 "b", Event.turnComplete]).app.history.map (fun t => t.id)
      = [7, 7] ∧
    ¬ ((runTrace initialWorld
      [Event.start 1 StartOutcome.success, Event.onOpen,
       Event.fragment 7 "a", Event.turnComplete,
       Event.fragment 7 "b", Event.turnComplete]).app.history.map
        (fun t => t.id)).Pairwise (· ≠ ·) := by
  decide

/-- C5 amended: within one session, (1) if the clock values at the
session's fragment events strictly increase (`Date.now()` never repeating
a millisecond during the session), the ids of turns appended to history
are pairwise distinct; (2) every in-session event only ever appends to
history as seen through `(id, original, isFinal)` — entries are never
reordered, removed, or altered in those fields once appended (only
`translated` can change, by keyed translation completion); (3) a fragment
never changes the id of an existing current turn. -/
theorem c5_ids_unique_stable_ordered :
    (∀ (n : Nat) (es : List Event),
      es.all inSession = true →
      clocksFromB 0 es = true →
      ((runTrace (step initialWorld (Event.start n StartOutcome.success)) es).app.history.map
        (fun t => t.id)).Pairwise (· ≠ ·)) ∧
    (∀ (w : World) (e : Event), inSession e = true →
      ∃ tail, (step w e).app.history.map (fun t => (t.id, t.original, t.isFinal))
        = w.app.history.map (fun t => (t.id, t.original, t.isFinal)) ++ tail) ∧
    (∀ (w : World) (k : Nat) (txt : String) (t : TranscriptionTurn),
      w.app.currentTurn = some t →
      ∃ u, (step w (Event.fragment k txt)).app.currentTurn = some u ∧ u.id = t.id) := by
  refine ⟨?_, ?_, ?_⟩
  · intro n es hall hcl
    have hp := stateIds_invariant es 0 (step initialWorld (Event.start n StartOutcome.success))
      hall rfl List.Pairwise.nil (fun i hi => by cases hi) hcl
    have hsub : (historyIds (runTrace (step initialWorld
          (Event.start n StartOutcome.success)) es)).Sublist
        (stateIds (runTrace (step initialWorld (Event.start n StartOutcome.success)) es)) :=
      List.sublist_append_left _ _
    exact (hp.sublist hsub).imp (fun hlt => Nat.ne_of_lt hlt)
  · intro w e he
    cases e with
    | start n o => cases he
    | onOpen => exact ⟨[], by simp [step, onOpenStep]⟩
    | fragment k txt => exact ⟨[], by simp [step, fragmentStep]⟩
    | turnComplete =>
        cases hc : w.app.currentTurn with
        | none => exact ⟨[], by simp [step, turnCompleteStep, hc]⟩
        | some t =>
            rcases eq_or_ne t.original "" with ht | ht
            · exact ⟨[], by simp [step, turnCompleteStep, hc, ht]⟩
            · exact ⟨[(t.id, t.original, true)], by simp [step, turnCompleteStep, hc, ht]⟩
    | stop =>
        cases hc : w.app.currentTurn with
        | none => exact ⟨[], by simp [step, stopListening_spec, hc]⟩
        | some t =>
            rcases eq_or_ne t.original "" with ht | ht
            · exact ⟨[], by simp [step, stopListening_spec, hc, ht]⟩
            · exact ⟨[(t.id, t.original, true)], by simp [step, stopListening_spec, hc, ht]⟩
    | streamError =>
        cases hc : w.sessionCaptured with
        | none => exact ⟨[], by simp [step, onErrorStep, stopListening_spec, hc]⟩
        | some t =>
            rcases eq_or_ne t.original "" with ht | ht
            · exact ⟨[], by simp [step, onErrorStep, stopListening_spec, hc, ht]⟩
            · exact ⟨[(t.id, t.original, true)],
                by simp [step, onErrorStep, stopListening_spec, hc, ht]⟩
    | translationDone tid trs =>
        refine ⟨[], ?_⟩
        show ((w.app.history.map (updTurn tid trs)).map
          (fun t => (t.id, t.original, t.isFinal))) = _
        rw [turnKey_map_updTurn]
        simp
  · intro w k txt t hcur
    refine ⟨⟨t.id, t.original ++ txt, t.translated, false⟩, ?_, rfl⟩
    show (fragmentStep k txt w.app).currentTurn = _
    rw [fragmentStep_some k txt w.app t hcur]

/-- C5 amended, witness: a concrete strictly-clocked two-turn session, a
concrete append-only step, and a concrete id-preserving fragment. -/
theorem c5_ids_unique_stable_ordered_witness :
    ((runTrace (step initialWorld (Event.start 1 StartOutcome.success))
        [Event.onOpen, Event.fragment 3 "a", Event.turnComplete,
         Event.fragment 4 "b", Event.turnComplete]).app.history.map
      (fun t => t.id)).Pairwise (· ≠ ·) ∧
    (∃ tail, (step wTurnDone Event.turnComplete).app.history.map
        (fun t => (t.id, t.original, t.isFinal))
      = wTurnDone.app.history.map (fun t => (t.id, t.original, t.isFinal)) ++ tail) ∧
    (∃ u, (step wLive (Event.fragment 9 "x")).app.currentTurn = some u ∧ u.id = 5) := by
  refine ⟨c5_ids_unique_stable_ordered.1 1 _ (by decide) (by decide),
          c5_ids_unique_stable_ordered.2.1 wTurnDone Event.turnComplete (by decide), ?_⟩
  exact c5_ids_unique_stable_ordered.2.2 wLive 9 "x" ⟨5, "hola", "", false⟩ (by decide)

/-- C3 amended, witness: a concrete connect-stage failure. -/
theorem c3_failure_leaves_resources_allocated_witness :
    (startListening initialWorld.app 1 (StartOutcome.failAt StartStage.connect "boom")).status
      = Status.error ∧
    (startListening initialWorld.app 1 (StartOutcome.failAt StartStage.connect "boom")).errorMessage
      = "Failed to start: " ++ "boom" ∧
    (startListening initialWorld.app 1 (StartOutcome.failAt StartStage.connect "boom")).micStream
      = some 1 ∧
    (startListening initialWorld.app 1 (StartOutcome.failAt StartStage.connect "boom")).audioCtx
      = some 1 ∧
    (startListening initialWorld.app 1 (StartOutcome.failAt StartStage.connect "boom")).ai
      = some 1 :=
  (c3_failure_leaves_resources_allocated initialWorld.app 1 "boom").1

/-- C10, witness: start from a state with one finalized turn, failing at
the connect stage, still discards the transcript. -/
theorem c10_start_resets_transcript_witness :
    (startSyncReset wTurnDone.app).history = [] ∧
    (startSyncReset wTurnDone.app).currentTurn = none ∧
    (startSyncReset wTurnDone.app).errorMessage = "" ∧
    (startSyncReset wTurnDone.app).status = Status.connecting ∧
    (startListening wTurnDone.app 2 (StartOutcome.failAt StartStage.connect "boom")).history
      = [] ∧
    (startListening wTurnDone.app 2 (StartOutcome.failAt StartStage.connect "boom")).currentTurn
      = none :=
  c10_start_resets_transcript wTurnDone.app 2 (StartOutcome.failAt StartStage.connect "boom")
